import Mathlib

/-!
Verification development for the gamescope reaper process supervisor
(src/Apps/gamescopereaper.cpp).

The embedding models, faithfully to the C++ source:
  * `GetChildPIDs` — the recursive process-tree scanner (the process table is
    the list of `(pid, ppid)` records the scan of `/proc` yields; the C++
    recursion depth, bounded in reality by the acyclicity of the parent
    relation, is modelled with a fuel argument large enough for every acyclic
    table);
  * `parseStatPpid` — the `/proc/<pid>/stat` line parser inside the scan loop,
    character by character (`std::string::find`, `substr`, `istringstream`
    token extraction and `std::stoi`, including the exception outcomes of
    `substr` and `stoi`);
  * `KillProcessTree` — the tree terminator, recording every `kill` attempt
    together with the (ignored) success of the delivery;
  * `reaperSignalHandler` — the shutdown signal handler over the `s_bRun`
    flag, driven by an arbitrary interleaving of deliveries and of the
    supervision loop's own writes;
  * `reaperMain` — the supervision control flow of `GamescopeReaperProcess`:
    option processing (results of `getopt_long` abstracted as a list of
    recognised/unknown events), the `--` separator scan, the spawn / wait /
    respawn loop and the final tree kill, producing a trace of observable
    events and an outcome (exit code, assertion abort, or out of fuel for a
    run still looping).
-/

set_option maxRecDepth 10000

namespace GamescopeReaper

/-! ## Process table scanner (`GetChildPIDs`)

The process table is the finite list of records `(pid, ppid)` obtained from
one scan of `/proc`.  The C++ function re-reads the whole table at every
recursion level; the table is fixed for the duration of one call, which the
model reflects by passing the same `t` to every level. -/

/-- One pass of the `readdir` loop of `GetChildPIDs`: for each entry whose
parent field equals `parentPid`, push its pid and splice in the recursively
computed grandchildren (`f`), exactly in the order of the C++ loop.
`none` signals that the recursion budget `f` was exhausted. -/
def scanList (f : Nat → Option (List Nat)) : List (Nat × Nat) → Nat → Option (List Nat)
  | [], _ => some []
  | e :: rest, parentPid =>
    if e.2 = parentPid then
      (f e.1).bind fun sub =>
        (scanList f rest parentPid).bind fun more => some (e.1 :: (sub ++ more))
    else scanList f rest parentPid

/-- `GetChildPIDs` with an explicit bound on the recursion depth. -/
def getChildAux (t : List (Nat × Nat)) : Nat → Nat → Option (List Nat)
  | 0, _ => none
  | fuel + 1, parentPid => scanList (getChildAux t fuel) t parentPid

/-- The recursive child-pid enumeration of the C++ source.  A depth budget of
`t.length + 1` call levels is enough for every acyclic table (a descending
ancestor chain repeats a pid beyond that), so on acyclic tables this equals
the unbounded C++ recursion. -/
def GetChildPIDs (t : List (Nat × Nat)) (parentPid : Nat) : Option (List Nat) :=
  getChildAux t (t.length + 1) parentPid

/-- `Desc t r x`: pid `x` is a strict descendant of `r` in table `t`, i.e.
`x` reaches `r` by following parent links. -/
inductive Desc (t : List (Nat × Nat)) : Nat → Nat → Prop
  | direct (x parentPid : Nat) : (x, parentPid) ∈ t → Desc t parentPid x
  | step (x y parentPid : Nat) : (x, y) ∈ t → Desc t parentPid y → Desc t parentPid x

/-- `ChainFrom t r cs`: `cs` is a descending parent-link chain starting under
`r` (each element is a child of the previous one). -/
def ChainFrom (t : List (Nat × Nat)) : Nat → List Nat → Prop
  | _, [] => True
  | r, c :: cs => (c, r) ∈ t ∧ ChainFrom t c cs

/-! ## Tree terminator (`KillProcessTree`) -/

/-- Record of one `kill(target, signo)` call.  `delivered` is the success of
the delivery (the target was still alive); the C++ caller ignores it. -/
structure KillAttempt where
  target : Nat
  signo : Nat
  delivered : Bool
deriving DecidableEq

/-- The `kill` system call against the set `alive` of still-existing pids.
The return value is recorded in the attempt but never inspected, exactly as
in the source. -/
def cppKill (alive : List Nat) (target signo : Nat) : KillAttempt :=
  ⟨target, signo, decide (target ∈ alive)⟩

/-- `KillProcessTree` over the already-parsed table: enumerate the
descendants, signal each of them in order, then signal the root itself last.
Returns the ordered list of kill attempts (`none` only if the scanner's fuel
ran out, impossible on acyclic tables).  This is the delivery phase only:
the enumeration's exception path, which escapes the real `KillProcessTree`
uncaught, is modelled by `rawKillProcessTree` below. -/
def KillProcessTree (t : List (Nat × Nat)) (alive : List Nat) (pid signo : Nat) :
    Option (List KillAttempt) :=
  match GetChildPIDs t pid with
  | none => none
  | some childPids =>
      some ((childPids.map fun c => cppKill alive c signo) ++ [cppKill alive pid signo])

/-! ## The stat-line parser inside `GetChildPIDs`

The C++ code reads one line of `/proc/<pid>/stat` and does:
`openParen = statLine.find('(')`, `closeParen = statLine.find(')', openParen)`
(the FIRST close paren at or after the first open paren), skips the entry if
either is `npos`, calls `statLine.substr(closeParen + 2)` (which throws
`std::out_of_range` when `closeParen + 2 > statLine.size()`), then extracts
whitespace tokens with an `istringstream` and calls `std::stoi` on the third
token (throwing `std::invalid_argument` when it does not start with a digit);
if fewer than three tokens exist, `ppid` keeps its initial value `0`. -/

/-- Index of the first occurrence of `c`, offsetting indices by `i`
(helper for `std::string::find`). -/
def findCharAux (c : Char) : List Char → Nat → Option Nat
  | [], _ => none
  | a :: rest, i => if a = c then some i else findCharAux c rest (i + 1)

/-- `std::string::find(c, start)`: index of the first occurrence of `c` at
position `start` or later, `none` for `npos`. -/
def findCharFrom (l : List Char) (c : Char) (start : Nat) : Option Nat :=
  match findCharAux c (l.drop start) 0 with
  | none => none
  | some k => some (start + k)

/-- The whitespace set of the default C++ stream locale. -/
def isSpaceChar (c : Char) : Bool :=
  c = ' ' || c = '\t' || c = '\n' || c = '\x0b' || c = '\x0c' || c = '\r'

/-- Accumulating tokenizer; `cur` holds the current token reversed. -/
def wsTokensAux : List Char → List Char → List (List Char)
  | [], cur => if cur = [] then [] else [cur.reverse]
  | a :: rest, cur =>
    if isSpaceChar a then
      if cur = [] then wsTokensAux rest [] else cur.reverse :: wsTokensAux rest []
    else wsTokensAux rest (a :: cur)

/-- The sequence of whitespace-delimited tokens `iss >> token` yields. -/
def wsTokens (l : List Char) : List (List Char) := wsTokensAux l []

/-- Value of the longest digit prefix (decimal), as accumulated by `stoi`. -/
def digitsVal : List Char → Nat → Nat
  | [], acc => acc
  | a :: rest, acc => if a.isDigit then digitsVal rest (acc * 10 + (a.toNat - 48)) else acc

/-- `std::stoi` on a whitespace-free token: optional sign then at least one
digit, parsing stops at the first non-digit; `none` models the thrown
`std::invalid_argument` when no digit is found. -/
def cppStoi : List Char → Option Int
  | [] => none
  | '-' :: rest =>
    match rest with
    | [] => none
    | b :: _ => if b.isDigit then some (-(digitsVal rest 0 : Int)) else none
  | '+' :: rest =>
    match rest with
    | [] => none
    | b :: _ => if b.isDigit then some ((digitsVal rest 0 : Nat) : Int) else none
  | a :: rest => if a.isDigit then some ((digitsVal (a :: rest) 0 : Nat) : Int) else none

/-- Outcome of parsing one stat line: the entry is silently skipped
(`continue`), an exception escapes (`thrown`), or a parent-pid value is
produced (`parsed`). -/
inductive StatParseResult
  | skipped
  | thrown
  | parsed (ppid : Int)
deriving DecidableEq

/-- The token loop after `substr`: take the third whitespace token and
`stoi` it; with fewer than three tokens `ppid` stays `0`. -/
def ppidFieldLoop (rest : List Char) : StatParseResult :=
  match (wsTokens rest).get? 2 with
  | none => StatParseResult.parsed 0
  | some tok =>
    match cppStoi tok with
    | none => StatParseResult.thrown
    | some v => StatParseResult.parsed v

/-- The complete stat-line handling of the C++ loop body (see module
comment above for the correspondence). -/
def parseStatPpid (statLine : List Char) : StatParseResult :=
  match findCharFrom statLine '(' 0 with
  | none => StatParseResult.skipped
  | some openParen =>
    match findCharFrom statLine ')' openParen with
    | none => StatParseResult.skipped
    | some closeParen =>
      if statLine.length < closeParen + 2 then StatParseResult.thrown
      else ppidFieldLoop (statLine.drop (closeParen + 2))

/-- Characterisation helper: what the loop computes from the characters that
follow the located close paren (one character is skipped, then the third
whitespace token is converted). -/
def thirdFieldExtract (r : List Char) : StatParseResult :=
  match r with
  | [] => StatParseResult.thrown
  | _ :: r2 => ppidFieldLoop r2

/-- Index of the last occurrence of `c` in the list. -/
def findLastChar (c : Char) : List Char → Option Nat
  | [] => none
  | a :: rest =>
    match findLastChar c rest with
    | some k => some (k + 1)
    | none => if a = c then some 0 else none

/-- Parser described by the specification for claim C2: locate the LAST
close paren, then read the parent id as the FIRST whitespace-delimited field
after it. -/
def claimedStatPpid (statLine : List Char) : Option Int :=
  match findLastChar ')' statLine with
  | none => none
  | some closeParen => ((wsTokens (statLine.drop (closeParen + 1))).get? 0).bind cppStoi

/-! ## Raw enumeration: the scan over `/proc` including the parse and its
exception path

`GetChildPIDs` and `KillProcessTree` above work over the already-parsed
`(pid, ppid)` table; the raw model below runs the full loop body over the
`readdir` results, feeding each stat line through `parseStatPpid`, so the
uncaught `std::stoi` / `substr` exception of a malformed line propagates out
of the recursion and out of `KillProcessTree`, exactly as in the source.
`rawGetChildPIDs_refines` below proves that on a table whose every entry
parses cleanly the two models agree. -/

/-- One `readdir` result: whether the entry is a directory, the value
`atoi(d_name)` yields (`0` stands for every name with `atoi <= 0`, which the
loop skips), and the first line of `/proc/<name>/stat` (`none`: the file
could not be opened). -/
structure ProcEntry where
  isDir : Bool
  pid : Nat
  stat : Option (List Char)

/-- Outcome of one raw enumeration: recursion budget exhausted (model
artefact), the C++ exception escaping, or the collected child pids. -/
inductive ScanOutcome
  | outOfFuel
  | thrown
  | ok (pids : List Nat)
deriving DecidableEq

/-- The `readdir` loop body over raw entries: skip non-directories,
`pid <= 0`, unopenable files and lines without both parens; let the
`stoi`/`substr` exception (`StatParseResult.thrown`) propagate; on a parsed
parent id equal to `parentPid`, push the pid and splice the recursive scan
`f`, in source order. -/
def rawScanList (f : Nat → ScanOutcome) : List ProcEntry → Nat → ScanOutcome
  | [], _ => ScanOutcome.ok []
  | e :: rest, parentPid =>
    if e.isDir = false then rawScanList f rest parentPid
    else if e.pid = 0 then rawScanList f rest parentPid
    else
      match e.stat with
      | none => rawScanList f rest parentPid
      | some line =>
        match parseStatPpid line with
        | StatParseResult.skipped => rawScanList f rest parentPid
        | StatParseResult.thrown => ScanOutcome.thrown
        | StatParseResult.parsed ppid =>
          if ppid = (parentPid : Int) then
            match f e.pid with
            | ScanOutcome.ok sub =>
              match rawScanList f rest parentPid with
              | ScanOutcome.ok more => ScanOutcome.ok (e.pid :: (sub ++ more))
              | o => o
            | o => o
          else rawScanList f rest parentPid

/-- The raw recursive enumeration with an explicit depth budget. -/
def rawGetChildAux (t : List ProcEntry) : Nat → Nat → ScanOutcome
  | 0, _ => ScanOutcome.outOfFuel
  | fuel + 1, parentPid => rawScanList (rawGetChildAux t fuel) t parentPid

/-- `GetChildPIDs` over the raw `/proc` contents. -/
def rawGetChildPIDs (t : List ProcEntry) (parentPid : Nat) : ScanOutcome :=
  rawGetChildAux t (t.length + 1) parentPid

/-- Result of `KillProcessTree` over the raw contents: the enumeration's
exception escapes the function before any `kill` is attempted, or the
ordered attempts (descendants in scan order, root last). -/
inductive KillOutcome
  | outOfFuel
  | thrown
  | attempts (l : List KillAttempt)
deriving DecidableEq

/-- `KillProcessTree` over the raw `/proc` contents: there is no try/catch
in the source, so a `thrown` enumeration aborts the call with no delivery. -/
def rawKillProcessTree (t : List ProcEntry) (alive : List Nat) (pid signo : Nat) :
    KillOutcome :=
  match rawGetChildPIDs t pid with
  | ScanOutcome.outOfFuel => KillOutcome.outOfFuel
  | ScanOutcome.thrown => KillOutcome.thrown
  | ScanOutcome.ok childPids =>
      KillOutcome.attempts
        ((childPids.map fun c => cppKill alive c signo) ++ [cppKill alive pid signo])

/-- Correspondence between a raw entry and one `(pid, ppid)` record of the
parsed table: a directory with a positive pid whose stat line parses to
exactly that parent id. -/
def EntryMatches (e : ProcEntry) (pr : Nat × Nat) : Prop :=
  e.isDir = true ∧ e.pid = pr.1 ∧ pr.1 ≠ 0
    ∧ ∃ line, e.stat = some line
        ∧ parseStatPpid line = StatParseResult.parsed (pr.2 : Int)

/-- Embed the parsed-table scanner's result into raw outcomes. -/
def scanOfOption : Option (List Nat) → ScanOutcome
  | none => ScanOutcome.outOfFuel
  | some l => ScanOutcome.ok l

/-! ## Shutdown signal handler

`s_bRun` starts `true`.  The handler installed for SIGHUP(1), SIGINT(2),
SIGQUIT(3) and SIGTERM(15) logs once and clears the flag only when it is
still set; the supervision loop's own writes only ever clear the flag. -/

/-- The four terminating signals of the `switch` in the handler. -/
def isTerminatingSignal (n : Nat) : Bool := n = 1 || n = 2 || n = 3 || n = 15

/-- The state touched by the handler: the `s_bRun` flag plus a count of the
shutdown log messages emitted. -/
structure SigState where
  run : Bool
  logCount : Nat
deriving DecidableEq

/-- The body of the lambda installed via `sigaction`. -/
def reaperSignalHandler (s : SigState) (sig : Nat) : SigState :=
  if isTerminatingSignal sig then
    if s.run then ⟨false, s.logCount + 1⟩ else s
  else s

/-- Events acting on `s_bRun`: an asynchronous signal delivery, or one of the
supervision loop's own `s_bRun = false` writes. -/
inductive RunEvent
  | signalDelivery (n : Nat)
  | loopClear
deriving DecidableEq

/-- One step of the flag state machine. -/
def stepRun (s : SigState) : RunEvent → SigState
  | RunEvent.signalDelivery n => reaperSignalHandler s n
  | RunEvent.loopClear => ⟨false, s.logCount⟩

/-- State after an arbitrary event interleaving, from the initial
`s_bRun = true`. -/
def runTrace (evs : List RunEvent) : SigState := evs.foldl stepRun ⟨true, 0⟩

/-! ## Supervision loop (`GamescopeReaperProcess`)

`getopt_long` is external (libc); its stream of results is abstracted as a
list of events, one per loop iteration: a recognised long option or the `?`
return for an unknown option.  Spawn results and the values `s_bRun` has at
the successive `while` checks are oracles indexed by occurrence. -/

/-- One result of the `getopt_long` loop. -/
inductive OptEvent
  | unknown
  | labelOpt
  | respawnOpt
  | newSessionOpt
deriving DecidableEq

/-- The flags accumulated by option processing. -/
structure ReaperFlags where
  bRespawn : Bool
  bNewSession : Bool
deriving DecidableEq

/-- Observable events of the supervision control flow. -/
inductive Ev
  | logUnknownOption
  | logNoSubCommand
  | spawnCall (res : Int)
  | waitCall (res : Int)
  | logRestart
  | logSpawnFailure
  | setRunFalse
  | killTreeCall (root : Nat) (signo : Nat)
deriving DecidableEq

/-- Final outcome of `GamescopeReaperProcess`: a return code, an abort via
the failed `assert(nOption == 0)` on an unknown option (or
`assert(nPrimaryChild != 0)`), or fuel exhaustion standing for a run that is
still looping. -/
inductive Outcome
  | exit (code : Nat)
  | abortAssert
  | outOfFuel
deriving DecidableEq

/-- Environment of one run: the argument vector, the `getopt_long` results,
the result of the i-th `SpawnProcess` call, the value of `s_bRun` at the j-th
`while (s_bRun)` check, and the supervisor's own pid (`getpid()`). -/
structure Env where
  argv : List String
  optEvents : List OptEvent
  spawnRes : Nat → Int
  flagAt : Nat → Bool
  selfPid : Nat

/-- The `getopt_long` loop: `label` is ignored, `respawn` and
`new-session-id` set their flags; an unknown option logs and then fails the
`assert(nOption == 0)` (modelled as `none`). -/
def processOpts : List OptEvent → ReaperFlags → List Ev × Option ReaperFlags
  | [], f => ([], some f)
  | OptEvent.unknown :: _, _ => ([Ev.logUnknownOption], none)
  | OptEvent.labelOpt :: rest, f => processOpts rest f
  | OptEvent.respawnOpt :: rest, f => processOpts rest { f with bRespawn := true }
  | OptEvent.newSessionOpt :: rest, f => processOpts rest { f with bNewSession := true }

/-- The scan for the `--` separator: first index `i` with `argv[i] == "--"`
and `i + 1 < argc` yields `nSubCommandArgc = i + 1`; otherwise `0`. -/
def findSepAux : List String → Nat → Nat → Nat
  | [], _, _ => 0
  | a :: rest, i, total => if a = "--" ∧ i + 1 < total then i + 1 else findSepAux rest (i + 1) total

/-- `nSubCommandArgc` as computed by the source. -/
def findSubCommandArgc (argv : List String) : Nat := findSepAux argv 0 argv.length

/-- The `while (s_bRun)` respawn loop, checking the flag before every
iteration; each iteration logs the restart, spawns (result NOT inspected)
and waits.  Returns the trace and whether the loop exited normally
(`false` = fuel exhausted). -/
def respawnLoop (env : Env) : Nat → Nat → List Ev × Bool
  | 0, _ => ([], false)
  | fuel + 1, j =>
    if env.flagAt j then
      (Ev.logRestart :: Ev.spawnCall (env.spawnRes (j + 1))
          :: Ev.waitCall (env.spawnRes (j + 1)) :: (respawnLoop env fuel (j + 1)).1,
        (respawnLoop env fuel (j + 1)).2)
    else ([], true)

/-- The control flow of `GamescopeReaperProcess` after the setup calls:
option processing, separator scan (exit 1 when absent), initial spawn
(assert on pid 0), wait, optional respawn loop, then
`s_bRun = false; KillProcessTree(getpid(), SIGTERM)` and the return code. -/
def reaperMain (env : Env) (fuel : Nat) : List Ev × Outcome :=
  match processOpts env.optEvents ⟨false, false⟩ with
  | (tr, none) => (tr, Outcome.abortAssert)
  | (tr, some flags) =>
    if findSubCommandArgc env.argv = 0 then
      (tr ++ [Ev.logNoSubCommand], Outcome.exit 1)
    else if env.spawnRes 0 = 0 then
      (tr ++ [Ev.spawnCall (env.spawnRes 0)], Outcome.abortAssert)
    else if 0 < env.spawnRes 0 then
      if flags.bRespawn then
        match respawnLoop env fuel 0 with
        | (tr2, true) =>
          (tr ++ Ev.spawnCall (env.spawnRes 0) :: Ev.waitCall (env.spawnRes 0) :: tr2
              ++ [Ev.setRunFalse, Ev.killTreeCall env.selfPid 15], Outcome.exit 0)
        | (tr2, false) =>
          (tr ++ Ev.spawnCall (env.spawnRes 0) :: Ev.waitCall (env.spawnRes 0) :: tr2,
            Outcome.outOfFuel)
      else
        (tr ++ [Ev.spawnCall (env.spawnRes 0), Ev.waitCall (env.spawnRes 0),
                Ev.setRunFalse, Ev.killTreeCall env.selfPid 15], Outcome.exit 0)
    else
      (tr ++ [Ev.spawnCall (env.spawnRes 0), Ev.logSpawnFailure,
              Ev.setRunFalse, Ev.killTreeCall env.selfPid 15], Outcome.exit 1)

/-- Number of `SpawnProcess` calls recorded in a trace. -/
def spawnCalls (tr : List Ev) : Nat :=
  (tr.filter fun e => match e with | Ev.spawnCall _ => true | _ => false).length

/-- Result of the last `SpawnProcess` call recorded in a trace. -/
def lastSpawnResult (tr : List Ev) : Option Int :=
  (tr.filterMap fun e => match e with | Ev.spawnCall r => some r | _ => none).getLast?

end GamescopeReaper

namespace GamescopeReaper

/-! ## Lemmas about the scanner -/

theorem desc_trans (t : List (Nat × Nat)) (r : Nat) :
    ∀ c x, Desc t c x → Desc t r c → Desc t r x := by
  intro c x h1
  induction h1 with
  | direct a b hab => intro h2; exact Desc.step a b r hab h2
  | step a b p hab _ ih => intro h2; exact Desc.step a b r hab (ih h2)

theorem desc_iff (t : List (Nat × Nat)) (r x : Nat) :
    Desc t r x ↔ ∃ c, (c, r) ∈ t ∧ (x = c ∨ Desc t c x) := by
  constructor
  · intro h
    induction h with
    | direct a b hab => exact ⟨a, hab, Or.inl rfl⟩
    | step a b p hab _ ih =>
      obtain ⟨d, hd, hbd⟩ := ih
      refine ⟨d, hd, Or.inr ?_⟩
      rcases hbd with rfl | hdb
      · exact Desc.direct a b hab
      · exact Desc.step a b d hab hdb
  · rintro ⟨c, hc, rfl | hcx⟩
    · exact Desc.direct x r hc
    · exact desc_trans t r c x hcx (Desc.direct c r hc)

theorem scanList_mem (t : List (Nat × Nat)) (f : Nat → Option (List Nat))
    (hf : ∀ r l, f r = some l → ∀ x, x ∈ l ↔ Desc t r x) :
    ∀ (entries : List (Nat × Nat)) (r : Nat) (l : List Nat),
      scanList f entries r = some l →
      ∀ x, x ∈ l ↔ ∃ c, (c, r) ∈ entries ∧ (x = c ∨ Desc t c x) := by
  intro entries
  induction entries with
  | nil =>
    intro r l hl x
    simp only [scanList, Option.some.injEq] at hl
    subst hl
    simp
  | cons e rest ih =>
    intro r l hl x
    simp only [scanList] at hl
    by_cases he : e.2 = r
    · rw [if_pos he] at hl
      cases hsub : f e.1 with
      | none => rw [hsub] at hl; simp at hl
      | some sub =>
        cases hmore : scanList f rest r with
        | none => rw [hsub, hmore] at hl; simp at hl
        | some more =>
          rw [hsub, hmore] at hl
          simp only [Option.some_bind, Option.some.injEq] at hl
          subst hl
          have heq : (e.1, r) = e := by rw [← he]
          have hs := hf e.1 sub hsub
          have hm := ih r more hmore
          constructor
          · intro hx
            rcases List.mem_cons.mp hx with rfl | hx2
            · exact ⟨e.1, by rw [heq]; exact List.mem_cons_self e rest, Or.inl rfl⟩
            · rcases List.mem_append.mp hx2 with hxs | hxm
              · exact ⟨e.1, by rw [heq]; exact List.mem_cons_self e rest,
                  Or.inr ((hs x).mp hxs)⟩
              · obtain ⟨c, hc, hxc⟩ := (hm x).mp hxm
                exact ⟨c, List.mem_cons_of_mem e hc, hxc⟩
          · rintro ⟨c, hc, hxc⟩
            rcases List.mem_cons.mp hc with hce | hcr
            · have hc1 : c = e.1 := congrArg Prod.fst hce
              subst hc1
              rcases hxc with rfl | hdesc
              · exact List.mem_cons_self _ _
              · exact List.mem_cons.mpr (Or.inr (List.mem_append.mpr
                  (Or.inl ((hs x).mpr hdesc))))
            · exact List.mem_cons.mpr (Or.inr (List.mem_append.mpr
                (Or.inr ((hm x).mpr ⟨c, hcr, hxc⟩))))
    · rw [if_neg he] at hl
      rw [ih r l hl x]
      constructor
      · rintro ⟨c, hc, hxc⟩
        exact ⟨c, List.mem_cons_of_mem e hc, hxc⟩
      · rintro ⟨c, hc, hxc⟩
        rcases List.mem_cons.mp hc with hce | hcr
        · exact absurd (congrArg Prod.snd hce).symm he
        · exact ⟨c, hcr, hxc⟩

theorem getChildAux_mem (t : List (Nat × Nat)) :
    ∀ (fuel r : Nat) (l : List Nat), getChildAux t fuel r = some l →
      ∀ x, x ∈ l ↔ Desc t r x := by
  intro fuel
  induction fuel with
  | zero => intro r l hl; simp [getChildAux] at hl
  | succ fuel ih =>
    intro r l hl x
    have h := scanList_mem t (getChildAux t fuel) (fun rr ll hh xx => ih rr ll hh xx)
      t r l (by simpa [getChildAux] using hl) x
    rw [h]
    exact (desc_iff t r x).symm

theorem scanList_ne_none (f : Nat → Option (List Nat)) :
    ∀ (entries : List (Nat × Nat)) (r : Nat),
      (∀ e ∈ entries, e.2 = r → f e.1 ≠ none) → scanList f entries r ≠ none := by
  intro entries
  induction entries with
  | nil => intro r _ h; simp [scanList] at h
  | cons e rest ih =>
    intro r hf
    by_cases he : e.2 = r
    · obtain ⟨sub, hsub⟩ := Option.ne_none_iff_exists'.mp
        (hf e (List.mem_cons_self e rest) he)
      obtain ⟨more, hmore⟩ := Option.ne_none_iff_exists'.mp
        (ih r fun a ha har => hf a (List.mem_cons_of_mem e ha) har)
      simp [scanList, if_pos he, hsub, hmore]
    · simpa [scanList, if_neg he] using
        ih r fun a ha har => hf a (List.mem_cons_of_mem e ha) har

theorem getChildAux_ne_none (t : List (Nat × Nat)) :
    ∀ (fuel r : Nat),
      (∀ cs, ChainFrom t r cs → cs.length < fuel) → getChildAux t fuel r ≠ none := by
  intro fuel
  induction fuel with
  | zero => intro r h; exact absurd (h [] trivial) (Nat.lt_irrefl 0)
  | succ fuel ih =>
    intro r h
    have hstep : ∀ e ∈ t, e.2 = r → getChildAux t fuel e.1 ≠ none := by
      intro e he her
      refine ih e.1 ?_
      intro cs hcs
      have hchain : ChainFrom t r (e.1 :: cs) := ⟨by rw [← her]; exact he, hcs⟩
      have hlen := h (e.1 :: cs) hchain
      simp only [List.length_cons] at hlen
      omega
    simpa [getChildAux] using scanList_ne_none (getChildAux t fuel) t r hstep

theorem chain_mem_desc (t : List (Nat × Nat)) :
    ∀ (cs : List Nat) (r : Nat), ChainFrom t r cs → ∀ x ∈ cs, Desc t r x := by
  intro cs
  induction cs with
  | nil => intro r _ x hx; cases hx
  | cons c cs ih =>
    intro r hch x hx
    obtain ⟨hcr, hrest⟩ := hch
    rcases List.mem_cons.mp hx with rfl | hx2
    · exact Desc.direct x r hcr
    · exact desc_trans t r c x (ih c hrest x hx2) (Desc.direct c r hcr)

theorem chain_nodup (t : List (Nat × Nat)) (hac : ∀ x, ¬ Desc t x x) :
    ∀ (cs : List Nat) (r : Nat), ChainFrom t r cs → cs.Nodup := by
  intro cs
  induction cs with
  | nil => intro r _; exact List.nodup_nil
  | cons c cs ih =>
    intro r hch
    obtain ⟨hcr, hrest⟩ := hch
    refine List.nodup_cons.mpr ⟨?_, ih c hrest⟩
    intro hmem
    exact hac c (chain_mem_desc t cs c hrest c hmem)

theorem chain_mem_keys (t : List (Nat × Nat)) :
    ∀ (cs : List Nat) (r : Nat), ChainFrom t r cs → ∀ x ∈ cs, x ∈ t.map Prod.fst := by
  intro cs
  induction cs with
  | nil => intro r _ x hx; cases hx
  | cons c cs ih =>
    intro r hch x hx
    obtain ⟨hcr, hrest⟩ := hch
    rcases List.mem_cons.mp hx with rfl | hx2
    · exact List.mem_map.mpr ⟨(x, r), hcr, rfl⟩
    · exact ih c hrest x hx2

theorem chain_length_le (t : List (Nat × Nat)) (hac : ∀ x, ¬ Desc t x x)
    (cs : List Nat) (r : Nat) (hch : ChainFrom t r cs) : cs.length ≤ t.length := by
  have h1 : cs.Nodup := chain_nodup t hac cs r hch
  have h2 : cs ⊆ t.map Prod.fst := fun x hx => chain_mem_keys t cs r hch x hx
  have h3 := List.Subperm.length_le (List.subperm_of_subset h1 h2)
  simpa using h3

/-- Shared helper: on an acyclic table the fuel never runs out and membership
in the result is exactly strict descendance. -/
theorem getChildPIDs_sound (t : List (Nat × Nat)) (r : Nat) (hac : ∀ x, ¬ Desc t x x) :
    ∃ l, GetChildPIDs t r = some l ∧ ∀ x, x ∈ l ↔ Desc t r x := by
  have hne : getChildAux t (t.length + 1) r ≠ none := by
    refine getChildAux_ne_none t (t.length + 1) r ?_
    intro cs hcs
    exact Nat.lt_succ_of_le (chain_length_le t hac cs r hcs)
  obtain ⟨l, hl⟩ := Option.ne_none_iff_exists'.mp hne
  exact ⟨l, hl, getChildAux_mem t (t.length + 1) r l hl⟩

theorem desc_parent_lt (t : List (Nat × Nat)) (h : ∀ p ∈ t, p.2 < p.1) :
    ∀ r x, Desc t r x → r < x := by
  intro r x hd
  induction hd with
  | direct a b hab => exact h (a, b) hab
  | step a b p hab _ ih => exact Nat.lt_trans ih (h (a, b) hab)

/-- Any table whose parent field is always smaller than the pid is acyclic. -/
theorem acyclic_of_parent_lt (t : List (Nat × Nat)) (h : ∀ p ∈ t, p.2 < p.1) :
    ∀ x, ¬ Desc t x x :=
  fun x hx => Nat.lt_irrefl x (desc_parent_lt t h x x hx)

/-- Claim C1: for every fixed finite (acyclic, as process tables are by OS
construction) table and every root `R`, `GetChildPIDs` returns exactly the
set of pids transitively reachable from `R` via parent links, excluding `R`
itself, independently of traversal order. -/
theorem GetChildPIDs_descendants (t : List (Nat × Nat)) (R : Nat)
    (hac : ∀ x, ¬ Desc t x x) :
    ∃ l, GetChildPIDs t R = some l ∧ R ∉ l ∧ ∀ x, x ∈ l ↔ Desc t R x := by
  obtain ⟨l, hl, hmem⟩ := getChildPIDs_sound t R hac
  exact ⟨l, hl, fun hR => hac R ((hmem R).mp hR), hmem⟩

theorem GetChildPIDs_descendants_witness :
    ∃ l, GetChildPIDs [(2, 1), (3, 2), (5, 4)] 1 = some l ∧ 1 ∉ l ∧
      ∀ x, x ∈ l ↔ Desc [(2, 1), (3, 2), (5, 4)] 1 x :=
  GetChildPIDs_descendants [(2, 1), (3, 2), (5, 4)] 1
    (acyclic_of_parent_lt [(2, 1), (3, 2), (5, 4)] (by decide))

/-- Delivery-phase lemma over the exception-free parsed table: the delivery
loop attempts the signal on every descendant of the root and then on the
root itself last; the sequence of attempted targets does not depend on which
targets are still alive (the `kill` return value is ignored), so failures on
already-exited targets never prevent the remaining attempts.  This covers
only the delivery portion of the tree terminator; the enumeration's
exception escape, which refutes the never-throws part of its contract, is
established on the raw model below. -/
theorem KillProcessTree_delivery (t : List (Nat × Nat)) (alive alive2 : List Nat)
    (R signo : Nat) (hac : ∀ x, ¬ Desc t x x) :
    ∃ atts atts2,
      KillProcessTree t alive R signo = some atts
      ∧ KillProcessTree t alive2 R signo = some atts2
      ∧ (∀ x, Desc t R x → (x, signo) ∈ atts.map fun a => (a.target, a.signo))
      ∧ atts.getLast? = some (cppKill alive R signo)
      ∧ (atts.map fun a => (a.target, a.signo))
          = atts2.map fun a => (a.target, a.signo) := by
  obtain ⟨l, hl, hmem⟩ := getChildPIDs_sound t R hac
  refine ⟨(l.map fun c => cppKill alive c signo) ++ [cppKill alive R signo],
          (l.map fun c => cppKill alive2 c signo) ++ [cppKill alive2 R signo],
          by simp [KillProcessTree, hl], by simp [KillProcessTree, hl], ?_, ?_, ?_⟩
  · intro x hx
    have hxl : x ∈ l := (hmem x).mpr hx
    rw [List.map_append]
    refine List.mem_append.mpr (Or.inl ?_)
    rw [List.map_map]
    exact List.mem_map.mpr ⟨x, hxl, rfl⟩
  · exact List.getLast?_concat _
  · simp [List.map_append, List.map_map, cppKill, Function.comp]

theorem KillProcessTree_delivery_witness :
    ∃ atts atts2,
      KillProcessTree [(2, 1)] [2] 1 9 = some atts
      ∧ KillProcessTree [(2, 1)] [] 1 9 = some atts2
      ∧ (∀ x, Desc [(2, 1)] 1 x → (x, 9) ∈ atts.map fun a => (a.target, a.signo))
      ∧ atts.getLast? = some (cppKill [2] 1 9)
      ∧ (atts.map fun a => (a.target, a.signo))
          = atts2.map fun a => (a.target, a.signo) :=
  KillProcessTree_delivery [(2, 1)] [2] [] 1 9
    (acyclic_of_parent_lt [(2, 1)] (by decide))

end GamescopeReaper

namespace GamescopeReaper

/-! ## Lemmas about the stat-line parser -/

theorem findCharAux_append (c : Char) (z : List Char) :
    ∀ (p : List Char), c ∉ p → ∀ i,
      findCharAux c (p ++ z) i = findCharAux c z (i + p.length) := by
  intro p
  induction p with
  | nil => intro _ i; simp
  | cons a p ih =>
    intro hp i
    have ha : ¬ (a = c) := fun h => hp (by rw [← h]; exact List.mem_cons_self a p)
    have h2 : c ∉ p := fun h => hp (List.mem_cons_of_mem a h)
    simp only [List.cons_append, findCharAux, List.append_eq]
    rw [if_neg ha, ih h2 (i + 1)]
    congr 1
    simp only [List.length_cons]
    omega

theorem findCharAux_self (c : Char) (z : List Char) (i : Nat) :
    findCharAux c (c :: z) i = some i := by
  simp [findCharAux]

theorem findCharFrom_first_open (p z : List Char) (hp : '(' ∉ p) :
    findCharFrom (p ++ '(' :: z) '(' 0 = some p.length := by
  simp only [findCharFrom, List.drop_zero]
  rw [findCharAux_append '(' ('(' :: z) p hp 0, findCharAux_self]
  simp

theorem findCharFrom_close (p n r : List Char) (hn : ')' ∉ n) :
    findCharFrom (p ++ '(' :: (n ++ ')' :: r)) ')' p.length
      = some (p.length + (1 + n.length)) := by
  have hdrop : (p ++ '(' :: (n ++ ')' :: r)).drop p.length = '(' :: (n ++ ')' :: r) :=
    List.drop_left p _
  simp only [findCharFrom, hdrop]
  have h1 : findCharAux ')' ('(' :: (n ++ ')' :: r)) 0
      = findCharAux ')' (n ++ ')' :: r) 1 := by
    simp [findCharAux]
  rw [h1, findCharAux_append ')' (')' :: r) n hn 1, findCharAux_self]

theorem drop_append_len (p : List Char) :
    ∀ (z : List Char) (k : Nat), (p ++ z).drop (p.length + k) = z.drop k := by
  induction p with
  | nil => intro z k; simp
  | cons a p ih =>
    intro z k
    have h : (a :: p).length + k = (p.length + k) + 1 := by
      simp only [List.length_cons]; omega
    rw [List.cons_append, h, List.drop_succ_cons, ih]

/-- Claim C2 (amended): the scanner keys on the FIRST close paren at or after
the first open paren — for a name containing `)` this is inside the name —
and extracts the parent pid from the THIRD whitespace-delimited field
starting two characters past that paren (throwing when the line ends before
that position).  Here `n` is the part of the line between the first `(` and
the first following `)`, and `r` is everything after that `)`. -/
theorem parse_after_first_close_paren (p n r : List Char)
    (hp : '(' ∉ p) (hn : ')' ∉ n) :
    parseStatPpid (p ++ '(' :: (n ++ ')' :: r)) = thirdFieldExtract r := by
  have h1 := findCharFrom_first_open p (n ++ ')' :: r) hp
  have h2 := findCharFrom_close p n r hn
  simp only [parseStatPpid, h1, h2]
  cases r with
  | nil =>
    rw [if_pos ?_]
    · rfl
    · simp only [List.length_append, List.length_cons, List.length_nil]
      omega
  | cons c r2 =>
    rw [if_neg ?_]
    · have hdrop : (p ++ '(' :: (n ++ ')' :: (c :: r2))).drop
          (p.length + (1 + n.length) + 2) = r2 := by
        have e1 : p.length + (1 + n.length) + 2 = p.length + (n.length + 3) := by omega
        rw [e1, drop_append_len]
        have e2 : n.length + 3 = (n.length + 2) + 1 := by omega
        rw [e2, List.drop_succ_cons]
        have e3 : n.length + 2 = n.length + 2 := rfl
        have := drop_append_len n (')' :: c :: r2) 2
        rw [this]
        rfl
      rw [hdrop]
      rfl
    · simp only [List.length_append, List.length_cons]
      omega

theorem parse_after_first_close_paren_witness :
    parseStatPpid ("7 ".toList ++ '(' :: ("ab".toList ++ ')' :: " S 4 5 6".toList))
      = thirdFieldExtract (" S 4 5 6".toList) :=
  parse_after_first_close_paren ("7 ".toList) ("ab".toList) (" S 4 5 6".toList)
    (by decide) (by decide)

/-- Claim C2 counterexample: on the record `1 (a)b) 7 8 9` — whose embedded
name `a)b` contains a close paren — the code extracts `8` (third field after
the FIRST close paren), while the claimed algorithm (first field after the
LAST close paren) yields `7`. -/
theorem parse_paren_counterexample :
    parseStatPpid ("1 (a)b) 7 8 9".toList) = StatParseResult.parsed 8
    ∧ claimedStatPpid ("1 (a)b) 7 8 9".toList) = some 7
    ∧ StatParseResult.parsed 8 ≠ StatParseResult.parsed 7 := by decide

/-- Claim C5: the enumeration does NOT skip every malformed status line
silently — `std::stoi` on a non-numeric third field throws
`std::invalid_argument`, and `substr(closeParen + 2)` past the end throws
`std::out_of_range`; both escape `GetChildPIDs`. -/
theorem parse_throws_on_malformed :
    parseStatPpid ("123 (x) garbage here now".toList) = StatParseResult.thrown
    ∧ parseStatPpid ("123 (x)".toList) = StatParseResult.thrown := by decide

end GamescopeReaper

namespace GamescopeReaper

/-! ## Lemmas about the shutdown flag -/

theorem stepRun_run_mono (s : SigState) (e : RunEvent) :
    (stepRun s e).run = true → s.run = true := by
  cases e with
  | signalDelivery n =>
    simp only [stepRun, reaperSignalHandler]
    by_cases ht : isTerminatingSignal n = true
    · rw [if_pos ht]
      by_cases hr : s.run = true
      · intro _; exact hr
      · rw [if_neg hr]; intro h; exact h
    · rw [if_neg ht]; intro h; exact h
  | loopClear => intro h; simp [stepRun] at h

theorem foldl_run_mono (more : List RunEvent) :
    ∀ s : SigState, (more.foldl stepRun s).run = true → s.run = true := by
  induction more with
  | nil => intro s h; exact h
  | cons e more ih =>
    intro s h
    exact stepRun_run_mono s e (ih (stepRun s e) h)

/-- Claim C4: under any interleaving of signal deliveries with the
supervision loop's own writes, the shutdown flag (the negation of `s_bRun`)
is monotone — `run` never returns to `true`, so the flag transitions
false→true at most once (first conjunct); the first terminating-signal
delivery that finds the flag unset logs exactly one message and clears the
flag (second conjunct); every delivery after the flag is set changes nothing
and logs nothing (third conjunct). -/
theorem shutdown_flag_monotone_once (evs more : List RunEvent) (n : Nat) :
    ((runTrace (evs ++ more)).run = true → (runTrace evs).run = true)
    ∧ ((runTrace evs).run = true → isTerminatingSignal n = true →
        runTrace (evs ++ [RunEvent.signalDelivery n])
          = ⟨false, (runTrace evs).logCount + 1⟩)
    ∧ ((runTrace evs).run = false →
        runTrace (evs ++ [RunEvent.signalDelivery n]) = runTrace evs) := by
  refine ⟨?_, ?_, ?_⟩
  · intro h
    rw [runTrace, List.foldl_append] at h
    exact foldl_run_mono more (runTrace evs) h
  · intro hr ht
    rw [runTrace, List.foldl_append]
    simp only [List.foldl_cons, List.foldl_nil, stepRun, reaperSignalHandler, ht, if_true]
    rw [runTrace] at hr
    rw [if_pos hr]
    rfl
  · intro hr
    rw [runTrace, List.foldl_append]
    simp only [List.foldl_cons, List.foldl_nil, stepRun, reaperSignalHandler]
    rw [runTrace] at hr
    rw [hr]
    simp [runTrace]

theorem shutdown_flag_monotone_once_witness :
    (runTrace [RunEvent.signalDelivery 9]).run = true
    ∧ runTrace ([] ++ [RunEvent.signalDelivery 15])
        = ⟨false, (runTrace []).logCount + 1⟩
    ∧ runTrace ([RunEvent.signalDelivery 15] ++ [RunEvent.signalDelivery 2])
        = runTrace [RunEvent.signalDelivery 15] := by
  refine ⟨?_, ?_, ?_⟩
  · exact (shutdown_flag_monotone_once [RunEvent.signalDelivery 9] [] 1).1 (by decide)
  · exact (shutdown_flag_monotone_once [] [] 15).2.1 (by decide) (by decide)
  · exact (shutdown_flag_monotone_once [RunEvent.signalDelivery 15] [] 2).2.2 (by decide)

end GamescopeReaper

namespace GamescopeReaper

/-! ## Lemmas about the supervision loop -/

theorem spawnCalls_append (a b : List Ev) :
    spawnCalls (a ++ b) = spawnCalls a + spawnCalls b := by
  simp [spawnCalls, List.filter_append]

theorem spawnCalls_cons_spawn (r : Int) (tr : List Ev) :
    spawnCalls (Ev.spawnCall r :: tr) = spawnCalls tr + 1 := by
  simp [spawnCalls, List.filter_cons]

theorem spawnCalls_cons_wait (r : Int) (tr : List Ev) :
    spawnCalls (Ev.waitCall r :: tr) = spawnCalls tr := by
  simp [spawnCalls, List.filter_cons]

theorem spawnCalls_cons_logRestart (tr : List Ev) :
    spawnCalls (Ev.logRestart :: tr) = spawnCalls tr := by
  simp [spawnCalls, List.filter_cons]

theorem findSepAux_eq_zero :
    ∀ (l : List String) (i total : Nat),
      (∀ k, i + k + 1 < total → l.get? k ≠ some "--") → findSepAux l i total = 0 := by
  intro l
  induction l with
  | nil => intro i total _; rfl
  | cons a rest ih =>
    intro i total h
    have hcond : ¬ (a = "--" ∧ i + 1 < total) := by
      rintro ⟨ha, hlt⟩
      exact h 0 (by omega) (by simp [ha])
    simp only [findSepAux, if_neg hcond]
    refine ih (i + 1) total ?_
    intro k hk
    have h2 := h (k + 1) (by omega)
    simpa using h2

theorem findSubCommandArgc_eq_zero (argv : List String)
    (h : ∀ i, i + 1 < argv.length → argv.get? i ≠ some "--") :
    findSubCommandArgc argv = 0 :=
  findSepAux_eq_zero argv 0 argv.length fun k hk => h k (by omega)

theorem respawnLoop_exits (env : Env) :
    ∀ (k fuel j : Nat), (∀ i, i < k → env.flagAt (j + i) = true) →
      env.flagAt (j + k) = false → k < fuel →
      (respawnLoop env fuel j).2 = true
        ∧ spawnCalls (respawnLoop env fuel j).1 = k := by
  intro k
  induction k with
  | zero =>
    intro fuel j h1 h2 hf
    obtain ⟨m, rfl⟩ : ∃ m, fuel = m + 1 := ⟨fuel - 1, by omega⟩
    have h2x : env.flagAt j = false := by simpa using h2
    simp [respawnLoop, h2x, spawnCalls]
  | succ k ih =>
    intro fuel j h1 h2 hf
    obtain ⟨m, rfl⟩ : ∃ m, fuel = m + 1 := ⟨fuel - 1, by omega⟩
    have h0 : env.flagAt j = true := by simpa using h1 0 (Nat.succ_pos k)
    have hrec := ih m (j + 1)
      (fun i hi => by
        have e : j + 1 + i = j + (i + 1) := by omega
        rw [e]
        exact h1 (i + 1) (by omega))
      (by
        have e : j + 1 + k = j + (k + 1) := by omega
        rw [e]
        exact h2)
      (by omega)
    simp only [respawnLoop, h0, if_true]
    refine ⟨hrec.1, ?_⟩
    rw [spawnCalls_cons_logRestart, spawnCalls_cons_spawn, spawnCalls_cons_wait, hrec.2]

theorem respawnLoop_congr (env env2 : Env) (hflag : env2.flagAt = env.flagAt) :
    ∀ (fuel j : Nat),
      spawnCalls (respawnLoop env2 fuel j).1 = spawnCalls (respawnLoop env fuel j).1
      ∧ (respawnLoop env2 fuel j).2 = (respawnLoop env fuel j).2 := by
  intro fuel
  induction fuel with
  | zero => intro j; exact ⟨rfl, rfl⟩
  | succ fuel ih =>
    intro j
    obtain ⟨ihc, iho⟩ := ih (j + 1)
    by_cases hb : env.flagAt j = true
    · have hb2 : env2.flagAt j = true := by rw [hflag]; exact hb
      simp only [respawnLoop, hb, hb2, if_true]
      refine ⟨?_, iho⟩
      rw [spawnCalls_cons_logRestart, spawnCalls_cons_spawn, spawnCalls_cons_wait,
        spawnCalls_cons_logRestart, spawnCalls_cons_spawn, spawnCalls_cons_wait, ihc]
    · simp only [Bool.not_eq_true] at hb
      have hb2 : env2.flagAt j = false := by rw [hflag]; exact hb
      simp [respawnLoop, hb, hb2]

/-- Claim C6: with a valid command line and successful initial spawn, the
supervision loop without `--respawn` spawns exactly once; with `--respawn`
it spawns again at each `while (s_bRun)` check that still finds the flag
set — `k` false→exit checks after `k` true checks give `k + 1` spawns in
total and a normal exit 0. -/
theorem respawn_spawn_counts (env : Env) (fuel k : Nat) (flags : ReaperFlags)
    (hopts : processOpts env.optEvents ⟨false, false⟩ = ([], some flags))
    (hsub : ¬ findSubCommandArgc env.argv = 0)
    (h0 : ¬ env.spawnRes 0 = 0) :
    (flags.bRespawn = false → spawnCalls (reaperMain env fuel).1 = 1)
    ∧ (flags.bRespawn = true → 0 < env.spawnRes 0 →
        (∀ i, i < k → env.flagAt i = true) → env.flagAt k = false → k < fuel →
        (reaperMain env fuel).2 = Outcome.exit 0
          ∧ spawnCalls (reaperMain env fuel).1 = k + 1) := by
  constructor
  · intro hresp
    simp only [reaperMain, hopts]
    rw [if_neg hsub, if_neg h0]
    by_cases hpos : 0 < env.spawnRes 0
    · rw [if_pos hpos, if_neg (by simp [hresp])]
      simp [spawnCalls, List.filter_cons]
    · rw [if_neg hpos]
      simp [spawnCalls, List.filter_cons]
  · intro hresp hpos h1 h2 hf
    have hrec := respawnLoop_exits env k fuel 0
      (fun i hi => by simpa using h1 i hi) (by simpa using h2) hf
    simp only [reaperMain, hopts]
    rw [if_neg hsub, if_neg h0, if_pos hpos, if_pos hresp]
    cases hplr : respawnLoop env fuel 0 with
    | mk tr2 ok =>
      rw [hplr] at hrec
      obtain ⟨hok, hcount⟩ := hrec
      simp only at hok hcount
      subst hok
      dsimp only
      refine ⟨by trivial, ?_⟩
      rw [List.nil_append, spawnCalls_append, spawnCalls_cons_spawn,
        spawnCalls_cons_wait, hcount]
      simp [spawnCalls, List.filter_cons]

theorem respawn_spawn_counts_witness :
    spawnCalls (reaperMain ⟨["p", "--", "c"], [], fun _ => 5, fun _ => false, 7⟩ 3).1 = 1
    ∧ ((reaperMain ⟨["p", "--", "c"], [OptEvent.respawnOpt], fun _ => 5,
          fun j => decide (j < 2), 7⟩ 9).2 = Outcome.exit 0
        ∧ spawnCalls (reaperMain ⟨["p", "--", "c"], [OptEvent.respawnOpt], fun _ => 5,
            fun j => decide (j < 2), 7⟩ 9).1 = 2 + 1) := by
  refine ⟨?_, ?_⟩
  · exact (respawn_spawn_counts ⟨["p", "--", "c"], [], fun _ => 5, fun _ => false, 7⟩
      3 0 ⟨false, false⟩ rfl (by decide) (by decide)).1 rfl
  · refine (respawn_spawn_counts ⟨["p", "--", "c"], [OptEvent.respawnOpt], fun _ => 5,
        fun j => decide (j < 2), 7⟩ 9 2 ⟨true, false⟩ rfl (by decide) (by decide)).2
      rfl (by decide) ?_ (by decide) (by decide)
    intro i hi
    have h01 : i = 0 ∨ i = 1 := by omega
    rcases h01 with rfl | rfl <;> rfl

/-- Claim C7 (amended): only the initial `SpawnProcess` result is inspected
— an initial failure is logged and fatal (one spawn, exit 1); the results of
the spawns inside the `--respawn` loop are never checked, so the spawn count
and the outcome are entirely independent of them (the loop keeps respawning
after a failure sentinel while the flag is set, logging no failure). -/
theorem spawn_failure_only_initial (env env2 : Env) (fuel : Nat) (flags : ReaperFlags)
    (hopts : processOpts env.optEvents ⟨false, false⟩ = ([], some flags))
    (hsub : ¬ findSubCommandArgc env.argv = 0)
    (hargv : env2.argv = env.argv) (hopt : env2.optEvents = env.optEvents)
    (hflag : env2.flagAt = env.flagAt) (hs0 : env2.spawnRes 0 = env.spawnRes 0) :
    (env.spawnRes 0 < 0 →
      spawnCalls (reaperMain env fuel).1 = 1
      ∧ (reaperMain env fuel).2 = Outcome.exit 1
      ∧ Ev.logSpawnFailure ∈ (reaperMain env fuel).1)
    ∧ spawnCalls (reaperMain env2 fuel).1 = spawnCalls (reaperMain env fuel).1
    ∧ (reaperMain env2 fuel).2 = (reaperMain env fuel).2 := by
  have hopts2 : processOpts env2.optEvents ⟨false, false⟩ = ([], some flags) := by
    rw [hopt]; exact hopts
  have hsub2 : ¬ findSubCommandArgc env2.argv = 0 := by rw [hargv]; exact hsub
  refine ⟨?_, ?_⟩
  · intro hneg
    have h0 : ¬ env.spawnRes 0 = 0 := by omega
    have hpos : ¬ 0 < env.spawnRes 0 := by omega
    simp only [reaperMain, hopts]
    rw [if_neg hsub, if_neg h0, if_neg hpos]
    refine ⟨by simp [spawnCalls, List.filter_cons], rfl, by simp⟩
  · simp only [reaperMain, hopts, hopts2]
    rw [if_neg hsub, if_neg hsub2, hs0]
    by_cases h0 : env.spawnRes 0 = 0
    · rw [if_pos h0, if_pos h0]
      simp [spawnCalls, List.filter_cons]
    · rw [if_neg h0, if_neg h0]
      by_cases hpos : 0 < env.spawnRes 0
      · rw [if_pos hpos, if_pos hpos]
        by_cases hresp : flags.bRespawn = true
        · rw [if_pos hresp, if_pos hresp]
          obtain ⟨ihc, iho⟩ := respawnLoop_congr env env2 hflag fuel 0
          cases hA : respawnLoop env fuel 0 with
          | mk trA okA =>
            cases hB : respawnLoop env2 fuel 0 with
            | mk trB okB =>
              rw [hA, hB] at ihc iho
              simp only at ihc iho
              subst iho
              cases okB with
              | true =>
                dsimp only [List.nil_append]
                constructor
                · rw [spawnCalls_append, spawnCalls_append,
                    spawnCalls_cons_spawn, spawnCalls_cons_spawn,
                    spawnCalls_cons_wait, spawnCalls_cons_wait, ihc]
                  simp [spawnCalls, List.filter_cons]
                · trivial
              | false =>
                dsimp only [List.nil_append]
                constructor
                · rw [spawnCalls_cons_spawn, spawnCalls_cons_wait,
                    spawnCalls_cons_spawn, spawnCalls_cons_wait, ihc]
                · trivial
        · rw [if_neg hresp, if_neg hresp]
          exact ⟨rfl, rfl⟩
      · rw [if_neg hpos, if_neg hpos]
        exact ⟨rfl, rfl⟩

theorem spawn_failure_only_initial_witness :
    (spawnCalls (reaperMain ⟨["p", "--", "c"], [], fun _ => -1, fun _ => false, 7⟩ 3).1 = 1
      ∧ (reaperMain ⟨["p", "--", "c"], [], fun _ => -1, fun _ => false, 7⟩ 3).2 = Outcome.exit 1
      ∧ Ev.logSpawnFailure ∈ (reaperMain ⟨["p", "--", "c"], [], fun _ => -1, fun _ => false, 7⟩ 3).1)
    ∧ (spawnCalls (reaperMain ⟨["p", "--", "c"], [OptEvent.respawnOpt], fun _ => 5,
          fun j => decide (j < 2), 7⟩ 9).1
        = spawnCalls (reaperMain ⟨["p", "--", "c"], [OptEvent.respawnOpt],
            fun i => if i = 1 then -1 else 5, fun j => decide (j < 2), 7⟩ 9).1
      ∧ (reaperMain ⟨["p", "--", "c"], [OptEvent.respawnOpt], fun _ => 5,
          fun j => decide (j < 2), 7⟩ 9).2
        = (reaperMain ⟨["p", "--", "c"], [OptEvent.respawnOpt],
            fun i => if i = 1 then -1 else 5, fun j => decide (j < 2), 7⟩ 9).2) := by
  refine ⟨?_, ?_⟩
  · exact (spawn_failure_only_initial
      ⟨["p", "--", "c"], [], fun _ => -1, fun _ => false, 7⟩
      ⟨["p", "--", "c"], [], fun _ => -1, fun _ => false, 7⟩
      3 ⟨false, false⟩ rfl (by decide) rfl rfl rfl rfl).1 (by decide)
  · exact (spawn_failure_only_initial
      ⟨["p", "--", "c"], [OptEvent.respawnOpt], fun i => if i = 1 then -1 else 5,
        fun j => decide (j < 2), 7⟩
      ⟨["p", "--", "c"], [OptEvent.respawnOpt], fun _ => 5, fun j => decide (j < 2), 7⟩
      9 ⟨true, false⟩ rfl (by decide) rfl rfl rfl (by decide)).2

/-- Claim C7 counterexample: with `--respawn`, after the second spawn
returns the failure sentinel `-1`, the loop performs a further spawn attempt
(three spawn calls in total), logs no spawn failure and exits 0 — so a spawn
failure is not fatal to the loop when it happens inside the respawn loop. -/
theorem respawn_after_failed_spawn :
    Ev.spawnCall (-1) ∈ (reaperMain ⟨["r", "--", "c"], [OptEvent.respawnOpt],
        fun i => if i = 1 then -1 else 5, fun j => decide (j < 2), 7⟩ 9).1
    ∧ spawnCalls (reaperMain ⟨["r", "--", "c"], [OptEvent.respawnOpt],
        fun i => if i = 1 then -1 else 5, fun j => decide (j < 2), 7⟩ 9).1 = 3
    ∧ Ev.logSpawnFailure ∉ (reaperMain ⟨["r", "--", "c"], [OptEvent.respawnOpt],
        fun i => if i = 1 then -1 else 5, fun j => decide (j < 2), 7⟩ 9).1
    ∧ (reaperMain ⟨["r", "--", "c"], [OptEvent.respawnOpt],
        fun i => if i = 1 then -1 else 5, fun j => decide (j < 2), 7⟩ 9).2
      = Outcome.exit 0 := by decide

end GamescopeReaper

namespace GamescopeReaper

/-- Claim C8: an initial spawn failure sets the flag, invokes the tree kill
against the supervisor's own pid and exits with status 1; and whenever the
run terminates with some exit code while the last recorded spawn succeeded,
that code is 0. -/
theorem exit_status_semantics (env : Env) (fuel : Nat) (flags : ReaperFlags) (c : Nat) (v : Int)
    (hopts : processOpts env.optEvents ⟨false, false⟩ = ([], some flags))
    (hsub : ¬ findSubCommandArgc env.argv = 0) :
    (env.spawnRes 0 < 0 →
      (reaperMain env fuel).2 = Outcome.exit 1
      ∧ Ev.setRunFalse ∈ (reaperMain env fuel).1
      ∧ Ev.killTreeCall env.selfPid 15 ∈ (reaperMain env fuel).1)
    ∧ ((reaperMain env fuel).2 = Outcome.exit c →
        lastSpawnResult (reaperMain env fuel).1 = some v → 0 < v → c = 0) := by
  constructor
  · intro hneg
    have h0 : ¬ env.spawnRes 0 = 0 := by omega
    have hpos : ¬ 0 < env.spawnRes 0 := by omega
    simp only [reaperMain, hopts]
    rw [if_neg hsub, if_neg h0, if_neg hpos]
    refine ⟨rfl, by simp, by simp⟩
  · intro hc hv hvpos
    simp only [reaperMain, hopts] at hc hv
    rw [if_neg hsub] at hc hv
    by_cases h0 : env.spawnRes 0 = 0
    · rw [if_pos h0] at hc
      simp at hc
    · rw [if_neg h0] at hc hv
      by_cases hpos : 0 < env.spawnRes 0
      · rw [if_pos hpos] at hc
        by_cases hresp : flags.bRespawn = true
        · rw [if_pos hresp] at hc
          cases hplr : respawnLoop env fuel 0 with
          | mk tr2 ok =>
            rw [hplr] at hc
            cases ok with
            | true => simp at hc; omega
            | false => simp at hc
        · rw [if_neg hresp] at hc
          simp at hc
          omega
      · rw [if_neg hpos] at hc hv
        simp only [List.nil_append] at hv
        simp [lastSpawnResult, List.filterMap_cons] at hv
        omega

theorem exit_status_semantics_witness :
    ((reaperMain ⟨["p", "--", "c"], [], fun _ => -1, fun _ => false, 7⟩ 3).2 = Outcome.exit 1
      ∧ Ev.setRunFalse ∈ (reaperMain ⟨["p", "--", "c"], [], fun _ => -1,
          fun _ => false, 7⟩ 3).1
      ∧ Ev.killTreeCall 7 15 ∈ (reaperMain ⟨["p", "--", "c"], [], fun _ => -1,
          fun _ => false, 7⟩ 3).1)
    ∧ (0 : Nat) = 0 := by
  refine ⟨?_, ?_⟩
  · exact (exit_status_semantics ⟨["p", "--", "c"], [], fun _ => -1, fun _ => false, 7⟩
      3 ⟨false, false⟩ 1 0 rfl (by decide)).1 (by decide)
  · exact (exit_status_semantics ⟨["p", "--", "c"], [], fun _ => 5, fun _ => false, 7⟩
      3 ⟨false, false⟩ 0 5 rfl (by decide)).2 (by decide) (by decide) (by decide)

/-- Claim C9: when no `--` token followed by at least one further argument
exists in the argument vector (and option processing raises no assertion),
the process logs the missing sub-command, exits with status 1 and never
spawns a child. -/
theorem missing_separator_exits_one (env : Env) (fuel : Nat) (flags : ReaperFlags)
    (hopts : processOpts env.optEvents ⟨false, false⟩ = ([], some flags))
    (hsep : ∀ i, i + 1 < env.argv.length → env.argv.get? i ≠ some "--") :
    (reaperMain env fuel).2 = Outcome.exit 1
    ∧ Ev.logNoSubCommand ∈ (reaperMain env fuel).1
    ∧ spawnCalls (reaperMain env fuel).1 = 0 := by
  have h0 := findSubCommandArgc_eq_zero env.argv hsep
  simp only [reaperMain, hopts]
  rw [if_pos h0]
  refine ⟨rfl, by simp, by simp [spawnCalls]⟩

theorem missing_separator_exits_one_witness :
    (reaperMain ⟨["gamescopereaper", "cmd"], [], fun _ => 5, fun _ => false, 7⟩ 3).2
        = Outcome.exit 1
    ∧ Ev.logNoSubCommand ∈ (reaperMain ⟨["gamescopereaper", "cmd"], [], fun _ => 5,
        fun _ => false, 7⟩ 3).1
    ∧ spawnCalls (reaperMain ⟨["gamescopereaper", "cmd"], [], fun _ => 5,
        fun _ => false, 7⟩ 3).1 = 0 := by
  refine missing_separator_exits_one
    ⟨["gamescopereaper", "cmd"], [], fun _ => 5, fun _ => false, 7⟩ 3 ⟨false, false⟩ rfl ?_
  intro i hi
  have hi2 : i + 1 < 2 := hi
  have hz : i = 0 := by omega
  subst hz
  decide

/-- Claim C10 (code bug evidence): on an unrecognized option the model logs
`Unknown option.` and then aborts via the failed `assert(nOption == 0)`
instead of exiting with status 1; no child is spawned. -/
theorem unknown_option_aborts :
    (reaperMain ⟨["gamescopereaper", "--bogus", "--", "true"], [OptEvent.unknown],
        fun _ => 5, fun _ => false, 7⟩ 3).2 = Outcome.abortAssert
    ∧ Ev.logUnknownOption ∈ (reaperMain ⟨["gamescopereaper", "--bogus", "--", "true"],
        [OptEvent.unknown], fun _ => 5, fun _ => false, 7⟩ 3).1
    ∧ spawnCalls (reaperMain ⟨["gamescopereaper", "--bogus", "--", "true"],
        [OptEvent.unknown], fun _ => 5, fun _ => false, 7⟩ 3).1 = 0 := by decide

end GamescopeReaper

namespace GamescopeReaper

/-! ## The raw enumeration refines the parsed-table scanner, and the
exception escapes the tree terminator -/

theorem rawScanList_refines (f : Nat → ScanOutcome) (g : Nat → Option (List Nat))
    (hfg : ∀ p, f p = scanOfOption (g p)) :
    ∀ (t : List ProcEntry) (t2 : List (Nat × Nat)), List.Forall₂ EntryMatches t t2 →
      ∀ r, rawScanList f t r = scanOfOption (scanList g t2 r) := by
  intro t t2 hcorr
  induction hcorr with
  | nil => intro r; rfl
  | @cons e pr tl tl2 he hrest ih =>
    intro r
    obtain ⟨hdir, hpid, hpr0, line, hline, hparse⟩ := he
    have hnd : ¬ e.isDir = false := by simp [hdir]
    have hnp : ¬ e.pid = 0 := by rw [hpid]; exact hpr0
    simp only [rawScanList, scanList, if_neg hnd, if_neg hnp, hline, hparse]
    by_cases hr : pr.2 = r
    · have hri : (pr.2 : Int) = (r : Int) := by rw [hr]
      rw [if_pos hri, if_pos hr, hpid, hfg pr.1]
      cases hg : g pr.1 with
      | none => simp [scanOfOption]
      | some sub =>
        simp only [scanOfOption, Option.some_bind]
        rw [ih r]
        cases hs : scanList g tl2 r with
        | none => simp [scanOfOption]
        | some more => simp [scanOfOption]
    · have hri : ¬ (pr.2 : Int) = (r : Int) := fun hcast => hr (Nat.cast_inj.mp hcast)
      rw [if_neg hri, if_neg hr]
      exact ih r

theorem rawGetChildAux_refines (t : List ProcEntry) (t2 : List (Nat × Nat))
    (hcorr : List.Forall₂ EntryMatches t t2) :
    ∀ (fuel r : Nat), rawGetChildAux t fuel r = scanOfOption (getChildAux t2 fuel r) := by
  intro fuel
  induction fuel with
  | zero => intro r; rfl
  | succ fuel ih =>
    intro r
    simp only [rawGetChildAux, getChildAux]
    exact rawScanList_refines (rawGetChildAux t fuel) (getChildAux t2 fuel) ih t t2 hcorr r

/-- On a table whose every entry parses cleanly, the raw enumeration is
exactly the parsed-table enumeration: the abstract model used for C1 is the
exception-free projection of the raw one. -/
theorem rawGetChildPIDs_refines (t : List ProcEntry) (t2 : List (Nat × Nat))
    (hcorr : List.Forall₂ EntryMatches t t2) (r : Nat) :
    rawGetChildPIDs t r = scanOfOption (GetChildPIDs t2 r) := by
  have hlen := List.Forall₂.length_eq hcorr
  simp only [rawGetChildPIDs, GetChildPIDs, hlen]
  exact rawGetChildAux_refines t t2 hcorr (t2.length + 1) r

/-- Claim C3 (code bug evidence): `KillProcessTree` is NOT exception-free.
Over a raw table in which pid 2 is a child of the root 1 and the entry for
pid 3 carries the malformed stat line `123 (x) garbage here now`, the
`std::stoi` exception raised during the enumeration escapes
`KillProcessTree(1, SIGTERM)` uncaught: the call throws and not a single
delivery is attempted, not even to the root (first conjunct).  With the
malformed entry absent, the very same call delivers to every descendant and
then to the root last (second conjunct), so it is exactly the uncaught
exception that breaks the claimed never-throws, deliver-to-all contract. -/
theorem killTree_throws_on_malformed_table :
    rawKillProcessTree
        [⟨true, 2, some ("2 (a) S 1 1".toList)⟩,
         ⟨true, 3, some ("123 (x) garbage here now".toList)⟩] [2, 3] 1 15
      = KillOutcome.thrown
    ∧ rawKillProcessTree [⟨true, 2, some ("2 (a) S 1 1".toList)⟩] [2] 1 15
      = KillOutcome.attempts [cppKill [2] 2 15, cppKill [2] 1 15] := by decide

end GamescopeReaper
